import Mathlib

/-!
# Verification of the tf-skein rendezvous / dispatch core

Shallow embedding of the task-dispatch core of this repository.  The
orchestrator (`dispatch` and `main` in `tf_skein/_dispatch_task.py`) is
embedded directly from its source.  The module `tf_skein/_internal.py`
(`KVBarrier`, `MonitoredThread`, `iter_available_sock_addrs`,
`xset_environ`) is not part of the source tree here — only its callers and
its tests are — so those pieces are modelled from the specification, as
noted on each definition.
-/

namespace TfSkein

/-- A process environment: an ordered association list of string bindings.
The most recent binding is first, and `List.lookup` returns it. -/
abbrev Env := List (String × String)

/-- Modelled from the spec: the collision test of `xset_environ` from
`tf_skein/_internal.py` (the module is absent from this source tree; only
its callers in `_dispatch_task.py` and its tests are present).  Per spec
section 6, the guarded mutation "fails loudly (distinct error) if any key
it is about to set already has a different value"; a key bound to the same
value is not a collision. -/
def envCollides (env : Env) (kv : String × String) : Bool :=
  match env.lookup kv.1 with
  | some v => v != kv.2
  | none => false

/-- Modelled from the spec: `xset_environ` from `tf_skein/_internal.py`
(absent from this source tree).  Per spec section 7 ("Environment
collision": immediate failure, no mutation applied) every key is checked
before any binding is written; on success every requested binding is
installed, shadowing older ones. -/
def xset_environ (env : Env) (kvs : Env) : Except String Env :=
  match kvs.find? (envCollides env) with
  | some kv => .error ("Environment variable already set: " ++ kv.1)
  | none => .ok (kvs.foldl (fun e kv => kv :: e) env)

/-- A local socket address, `(host, port)`. -/
abbrev Addr := String × Nat

/-- Modelled from the spec: drawing `n` addresses from one open
`iter_available_sock_addrs` sequence (`tf_skein/_internal.py`, absent from
this source tree).  `fresh` abstracts the operating system choosing a
locally bindable address: it returns an address that is not currently
bound, or `none` on resource exhaustion.  Each drawn address is bound at
once and stays bound (reserved) until the sequence is closed.  Returns the
yielded addresses together with the bound set after drawing. -/
def drawN (fresh : List Addr → Option Addr) (bound : List Addr) :
    Nat → Option (List Addr × List Addr)
  | 0 => some ([], bound)
  | n + 1 =>
    match fresh bound with
    | none => none
    | some a =>
      match drawN fresh (a :: bound) n with
      | none => none
      | some (ys, bfin) => some (a :: ys, bfin)

/-- A third party binding an address: fails with `EADDRINUSE` exactly when
the address is currently bound by someone. -/
def bindAddr (bound : List Addr) (a : Addr) : Except String (List Addr) :=
  if a ∈ bound then .error "EADDRINUSE" else .ok (a :: bound)

/-- Modelled from the spec: closing the allocator sequence releases every
reservation it holds (spec section 4.1 and section 8). -/
def closeSeq (bound : List Addr) (held : List Addr) : List Addr :=
  bound.filter (fun a => decide (a ∉ held))

theorem drawN_not_mem_start (fresh : List Addr → Option Addr)
    (hf : ∀ b a, fresh b = some a → a ∉ b) :
    ∀ (n : Nat) (b ys bfin : List Addr), drawN fresh b n = some (ys, bfin) →
      ∀ y ∈ ys, y ∉ b := by
  intro n
  induction n with
  | zero =>
    intro b ys bfin h y hy
    simp only [drawN, Option.some.injEq, Prod.mk.injEq] at h
    obtain ⟨h1, _⟩ := h
    subst h1
    simp at hy
  | succ n ih =>
    intro b ys bfin h y hy
    simp only [drawN] at h
    split at h
    · exact absurd h (by simp)
    · rename_i a hfr
      split at h
      · exact absurd h (by simp)
      · rename_i ys' bfin' hd
        simp only [Option.some.injEq, Prod.mk.injEq] at h
        obtain ⟨hys, hbf⟩ := h
        subst hys
        subst hbf
        rcases List.mem_cons.mp hy with rfl | hy'
        · exact hf b y hfr
        · intro hyb
          exact ih (a :: b) ys' bfin' hd y hy' (List.mem_cons_of_mem a hyb)

theorem drawN_bound_eq (fresh : List Addr → Option Addr) :
    ∀ (n : Nat) (b ys bfin : List Addr), drawN fresh b n = some (ys, bfin) →
      bfin = ys.reverse ++ b := by
  intro n
  induction n with
  | zero =>
    intro b ys bfin h
    simp only [drawN, Option.some.injEq, Prod.mk.injEq] at h
    obtain ⟨h1, h2⟩ := h
    subst h1; subst h2; simp
  | succ n ih =>
    intro b ys bfin h
    simp only [drawN] at h
    split at h
    · exact absurd h (by simp)
    · rename_i a hfr
      split at h
      · exact absurd h (by simp)
      · rename_i ys' bfin' hd
        simp only [Option.some.injEq, Prod.mk.injEq] at h
        obtain ⟨hys, hbf⟩ := h
        subst hys
        subst hbf
        have := ih (a :: b) ys' bfin' hd
        simp [this, List.append_assoc]

/-- C4: for every `n` not exceeding the available local ports (here: every
`n` for which the draw succeeds), drawing `n` addresses from one open Port
Allocator sequence yields `n` pairwise-distinct `(host, port)` addresses. -/
theorem port_allocator_distinct (fresh : List Addr → Option Addr)
    (hf : ∀ b a, fresh b = some a → a ∉ b)
    (b0 : List Addr) (n : Nat) (ys bfin : List Addr)
    (h : drawN fresh b0 n = some (ys, bfin)) :
    ys.Nodup ∧ ys.length = n := by
  induction n generalizing b0 ys bfin with
  | zero =>
    simp only [drawN, Option.some.injEq, Prod.mk.injEq] at h
    obtain ⟨h1, _⟩ := h
    subst h1
    simp
  | succ n ih =>
    simp only [drawN] at h
    split at h
    · exact absurd h (by simp)
    · rename_i a hfr
      split at h
      · exact absurd h (by simp)
      · rename_i ys' bfin' hd
        simp only [Option.some.injEq, Prod.mk.injEq] at h
        obtain ⟨hys, hbf⟩ := h
        subst hys
        subst hbf
        obtain ⟨hnd, hlen⟩ := ih (a :: b0) ys' bfin' hd
        have hnotin : a ∉ ys' := fun hin =>
          drawN_not_mem_start fresh hf n (a :: b0) ys' bfin' hd a hin
            (List.mem_cons_self a b0)
        exact ⟨List.nodup_cons.mpr ⟨hnotin, hnd⟩, by simp [hlen]⟩

/-- The chooser used to witness the Port Allocator theorems: it hands out
`("h", 0)`, then `("h", 1)`, then is exhausted. -/
def freshW (b : List Addr) : Option Addr :=
  if (("h", 0) : Addr) ∈ b then
    (if (("h", 1) : Addr) ∈ b then none else some ("h", 1))
  else some ("h", 0)

theorem freshW_fresh : ∀ b a, freshW b = some a → a ∉ b := by
  intro b a h
  unfold freshW at h
  split at h
  · split at h
    · exact absurd h (by simp)
    · rename_i h0 h1
      simp only [Option.some.injEq] at h
      subst h
      exact h1
  · rename_i h0
    simp only [Option.some.injEq] at h
    subst h
    exact h0

/-- Witness for C4 at a concrete chooser: two draws yield two distinct
addresses. -/
theorem port_allocator_distinct_witness :
    (∀ b a, freshW b = some a → a ∉ b) ∧
    drawN freshW [] 2 = some ([("h", 0), ("h", 1)], [("h", 1), ("h", 0)]) ∧
    (([("h", 0), ("h", 1)] : List Addr).Nodup ∧
      ([("h", 0), ("h", 1)] : List Addr).length = 2) :=
  ⟨freshW_fresh, by decide,
    port_allocator_distinct freshW freshW_fresh [] 2 [("h", 0), ("h", 1)]
      [("h", 1), ("h", 0)] (by decide)⟩

/-- C5: every address yielded by an open Port Allocator sequence is held, so
a third-party bind of it fails with `EADDRINUSE` while the sequence is open;
closing the sequence releases every reservation, after which the bind
succeeds. -/
theorem port_allocator_reservation (fresh : List Addr → Option Addr)
    (hf : ∀ b a, fresh b = some a → a ∉ b)
    (b0 : List Addr) (n : Nat) (ys bfin : List Addr)
    (h : drawN fresh b0 n = some (ys, bfin)) :
    (∀ a ∈ ys, bindAddr bfin a = .error "EADDRINUSE") ∧
    (∀ a ∈ ys, bindAddr (closeSeq bfin ys) a = .ok (a :: closeSeq bfin ys)) := by
  have hbeq := drawN_bound_eq fresh n b0 ys bfin h
  constructor
  · intro a ha
    have : a ∈ bfin := by
      rw [hbeq]
      exact List.mem_append.mpr (Or.inl (List.mem_reverse.mpr ha))
    simp [bindAddr, this]
  · intro a ha
    have hnot : a ∉ closeSeq bfin ys := by
      intro hmem
      obtain ⟨_, hp⟩ := List.mem_filter.mp hmem
      exact (of_decide_eq_true hp) ha
    simp [bindAddr, hnot]

/-- Witness for C5 at a concrete chooser: both held addresses are unbindable
while open and bindable after the close. -/
theorem port_allocator_reservation_witness :
    (∀ b a, freshW b = some a → a ∉ b) ∧
    drawN freshW [] 2 = some ([("h", 0), ("h", 1)], [("h", 1), ("h", 0)]) ∧
    ((∀ a ∈ ([("h", 0), ("h", 1)] : List Addr),
        bindAddr [("h", 1), ("h", 0)] a = .error "EADDRINUSE") ∧
      (∀ a ∈ ([("h", 0), ("h", 1)] : List Addr),
        bindAddr (closeSeq [("h", 1), ("h", 0)] [("h", 0), ("h", 1)]) a =
          .ok (a :: closeSeq [("h", 1), ("h", 0)] [("h", 0), ("h", 1)]))) :=
  ⟨freshW_fresh, by decide,
    port_allocator_reservation freshW freshW_fresh [] 2 [("h", 0), ("h", 1)]
      [("h", 1), ("h", 0)] (by decide)⟩

/-- C6: the guarded environment mutation sets a previously-unset key and
makes it visible immediately; a key already set to a different value makes
the call fail with the distinct collision error; when any pair collides the
whole call errors, so no key it was about to set is mutated. -/
theorem xset_environ_guard (env : Env) (k v : String) (kvs : Env) :
    (env.lookup k = none →
      ∃ env', xset_environ env [(k, v)] = .ok env' ∧ env'.lookup k = some v) ∧
    (∀ w, env.lookup k = some w → w ≠ v →
      xset_environ env [(k, v)] =
        .error ("Environment variable already set: " ++ k)) ∧
    ((∃ p ∈ kvs, ∃ w, env.lookup p.1 = some w ∧ w ≠ p.2) →
      ∃ msg, xset_environ env kvs = .error msg) := by
  refine ⟨?_, ?_, ?_⟩
  · intro hnone
    refine ⟨(k, v) :: env, ?_, ?_⟩
    · simp [xset_environ, List.find?, envCollides, hnone]
    · simp [List.lookup]
  · intro w hw hne
    have hcol : envCollides env (k, v) = true := by
      simp [envCollides, hw, bne_iff_ne, hne]
    simp [xset_environ, List.find?, hcol]
  · rintro ⟨p, hp, w, hw, hne⟩
    cases hfind : kvs.find? (envCollides env) with
    | none =>
      have := List.find?_eq_none.mp hfind p hp
      have hcol : envCollides env p = true := by
        simp [envCollides, hw, bne_iff_ne, hne]
      exact absurd hcol this
    | some kv =>
      exact ⟨"Environment variable already set: " ++ kv.1,
        by simp [xset_environ, hfind]⟩

/-- Witness for C6: setting an unset key succeeds and is visible; an
overwrite attempt with a different value errors. -/
theorem xset_environ_guard_witness :
    (([("foo", "bar")] : Env).lookup "foo" = some "bar" ∧ "bar" ≠ "boo") ∧
    xset_environ [("foo", "bar")] [("foo", "boo")] =
      .error ("Environment variable already set: " ++ "foo") :=
  ⟨⟨by decide, by decide⟩,
    (xset_environ_guard [("foo", "bar")] "foo" "boo" []).2.1 "bar" (by decide)
      (by decide)⟩

/-- A task identity: `(task_type, task_index)` (spec section 3). -/
structure TaskId where
  taskType : String
  taskIndex : Nat
deriving DecidableEq, Repr

/-- One published barrier entry: a task identity together with its payload
(for the "init" phase, the serialized address "host:port"). -/
abbrev Entry := TaskId × String

/-- Order on `(task_index, payload)` pairs used to lay out one task type's
sequence: by `task_index`, payload as a tie-break so that the construction
is deterministic (the tie only arises in the duplicate-identity case the
spec calls a caller error, section 4.2). -/
def idxLe (x y : Nat × String) : Prop :=
  x.1 < y.1 ∨ (x.1 = y.1 ∧ x.2 ≤ y.2)

instance : DecidableRel idxLe := fun x y => by
  unfold idxLe
  infer_instance

instance : IsTotal (Nat × String) idxLe :=
  ⟨fun x y => by
    rcases Nat.lt_trichotomy x.1 y.1 with h | h | h
    · exact Or.inl (Or.inl h)
    · rcases le_total x.2 y.2 with hs | hs
      · exact Or.inl (Or.inr ⟨h, hs⟩)
      · exact Or.inr (Or.inr ⟨h.symm, hs⟩)
    · exact Or.inr (Or.inl h)⟩

instance : IsTrans (Nat × String) idxLe :=
  ⟨fun x y z hxy hyz => by
    rcases hxy with h1 | ⟨h1, s1⟩ <;> rcases hyz with h2 | ⟨h2, s2⟩
    · exact Or.inl (h1.trans h2)
    · exact Or.inl (h2 ▸ h1)
    · exact Or.inl (h1 ▸ h2)
    · exact Or.inr ⟨h1.trans h2, s1.trans s2⟩⟩

instance : IsAntisymm (Nat × String) idxLe :=
  ⟨fun x y hxy hyx => by
    rcases hxy with h1 | ⟨h1, s1⟩ <;> rcases hyx with h2 | ⟨h2, s2⟩
    · exact absurd (h1.trans h2) (lt_irrefl _)
    · exact absurd h1 (by omega)
    · exact absurd h2 (by omega)
    · exact Prod.ext h1 (le_antisymm s1 s2)⟩

/-- The `(task_index, payload)` pairs published under a given task type. -/
def projType (entries : List Entry) (t : String) : List (Nat × String) :=
  (entries.filter (fun e => e.1.taskType == t)).map (fun e => (e.1.taskIndex, e.2))

/-- Modelled from the spec: the per-type sequence the "init" barrier builds
(`KVBarrier` lives in `tf_skein/_internal.py`, absent from this source
tree).  Spec section 4.2: group the published payloads by `task_type`,
using `task_index` as the position within the type's sequence. -/
def groupFor (entries : List Entry) (t : String) : List (Nat × String) :=
  List.insertionSort idxLe (projType entries t)

/-- Modelled from the spec: the Cluster Spec returned by
`KVBarrier("init").wait` — for each task type, that type's payloads in
`task_index` order (spec sections 3 and 4.2). -/
def buildSpec (entries : List Entry) (t : String) : List String :=
  (groupFor entries t).map Prod.snd

/-- C1: with pairwise-distinct identities, the Cluster Spec built by the
"init" barrier is the same for every caller no matter the publish order
(`e1` and `e2` are two observation orders of the same published set), it
contains exactly the published addresses grouped by task type, and each
type's sequence is ordered by task index. -/
theorem init_barrier_cluster_spec (e1 e2 : List Entry)
    (hnd : (e1.map Prod.fst).Nodup) (hperm : e1.Perm e2) :
    (∀ t, buildSpec e1 t = buildSpec e2 t) ∧
    (∀ t, (groupFor e1 t).Perm (projType e1 t)) ∧
    (∀ t i a, (i, a) ∈ groupFor e1 t ↔ (TaskId.mk t i, a) ∈ e1) ∧
    (∀ t, (groupFor e1 t).Sorted (fun x y => x.1 ≤ y.1)) := by
  refine ⟨?_, ?_, ?_, ?_⟩
  · intro t
    have hfp : (projType e1 t).Perm (projType e2 t) :=
      (hperm.filter _).map _
    have hp : (groupFor e1 t).Perm (groupFor e2 t) :=
      ((List.perm_insertionSort idxLe _).trans hfp).trans
        (List.perm_insertionSort idxLe _).symm
    have heq : groupFor e1 t = groupFor e2 t :=
      List.eq_of_perm_of_sorted hp (List.sorted_insertionSort idxLe _)
        (List.sorted_insertionSort idxLe _)
    simp [buildSpec, heq]
  · intro t
    exact List.perm_insertionSort idxLe _
  · intro t i a
    constructor
    · intro h
      have h' : (i, a) ∈ projType e1 t :=
        (List.perm_insertionSort idxLe _).subset h
      obtain ⟨e, he, heq⟩ := List.mem_map.mp h'
      obtain ⟨hmem, hft⟩ := List.mem_filter.mp he
      have htt : e.1.taskType = t := by simpa using hft
      obtain ⟨⟨tt, ii⟩, aa⟩ := e
      simp only [Prod.mk.injEq] at heq
      obtain ⟨hi, ha⟩ := heq
      simp only at htt
      subst htt
      subst hi
      subst ha
      exact hmem
    · intro h
      have hmemf : (TaskId.mk t i, a) ∈ e1.filter (fun e => e.1.taskType == t) :=
        List.mem_filter.mpr ⟨h, by simp⟩
      have : (i, a) ∈ projType e1 t :=
        List.mem_map.mpr ⟨(TaskId.mk t i, a), hmemf, rfl⟩
      exact ((List.perm_insertionSort idxLe _).symm).subset this
  · intro t
    have hs : (groupFor e1 t).Sorted idxLe :=
      List.sorted_insertionSort idxLe _
    exact hs.imp (fun h => by
      rcases h with h | ⟨h, _⟩
      · exact Nat.le_of_lt h
      · exact Nat.le_of_eq h)

/-- Witness for C1: three participants published in two different orders
yield the same grouped, index-ordered Cluster Spec. -/
theorem init_barrier_cluster_spec_witness :
    (([(TaskId.mk "worker" 1, "h:2"), (TaskId.mk "worker" 0, "h:1"),
        (TaskId.mk "ps" 0, "h:3")] : List Entry).map Prod.fst).Nodup ∧
    ([(TaskId.mk "worker" 1, "h:2"), (TaskId.mk "worker" 0, "h:1"),
        (TaskId.mk "ps" 0, "h:3")] : List Entry).Perm
      [(TaskId.mk "ps" 0, "h:3"), (TaskId.mk "worker" 0, "h:1"),
        (TaskId.mk "worker" 1, "h:2")] ∧
    ((∀ t, buildSpec [(TaskId.mk "worker" 1, "h:2"), (TaskId.mk "worker" 0, "h:1"),
        (TaskId.mk "ps" 0, "h:3")] t =
          buildSpec [(TaskId.mk "ps" 0, "h:3"), (TaskId.mk "worker" 0, "h:1"),
            (TaskId.mk "worker" 1, "h:2")] t) ∧
      (∀ t, (groupFor [(TaskId.mk "worker" 1, "h:2"), (TaskId.mk "worker" 0, "h:1"),
          (TaskId.mk "ps" 0, "h:3")] t).Perm
            (projType [(TaskId.mk "worker" 1, "h:2"), (TaskId.mk "worker" 0, "h:1"),
              (TaskId.mk "ps" 0, "h:3")] t)) ∧
      (∀ t i a, (i, a) ∈ groupFor [(TaskId.mk "worker" 1, "h:2"),
          (TaskId.mk "worker" 0, "h:1"), (TaskId.mk "ps" 0, "h:3")] t ↔
            (TaskId.mk t i, a) ∈ ([(TaskId.mk "worker" 1, "h:2"),
              (TaskId.mk "worker" 0, "h:1"), (TaskId.mk "ps" 0, "h:3")] : List Entry)) ∧
      (∀ t, (groupFor [(TaskId.mk "worker" 1, "h:2"), (TaskId.mk "worker" 0, "h:1"),
          (TaskId.mk "ps" 0, "h:3")] t).Sorted (fun x y => x.1 ≤ y.1))) :=
  ⟨by decide, by decide,
    init_barrier_cluster_spec _ _ (by decide) (by decide)⟩

/-- The distinct task identities that have published under a phase
namespace (the keys `<phase>/<task-identity>` a poll can observe). -/
def distinctKeys (entries : List Entry) : List TaskId :=
  (entries.map Prod.fst).dedup

/-- Modelled from the spec: the polling loop of `KVBarrier.wait`
(`tf_skein/_internal.py`, absent from this source tree).  Spec section 4.2:
after publishing, the call "blocks, repeatedly querying the KV store, until
the number of distinct published keys under `<phase>/*` equals the expected
participant count".  `trace t` is the KV snapshot the poll at step `t`
observes; `fuel` bounds how many polls we unfold (running out of fuel is
the still-blocked case, `none`). -/
def waitPoll (expected : Nat) (trace : Nat → List Entry) :
    Nat → Nat → Option (List Entry)
  | _, 0 => none
  | t, fuel + 1 =>
    if (distinctKeys (trace t)).length = expected then some (trace t)
    else waitPoll expected trace (t + 1) fuel

/-- C2: `KVBarrier.wait` returns only once the number of distinct keys
published under the phase equals the expected participant count; in
particular, when only expected participants publish, it returns to no one
until every one of the `N` expected participants has published (has called
the barrier). -/
theorem kvbarrier_wait_blocks_until_all (expected : List TaskId)
    (hE : expected.Nodup) (trace : Nat → List Entry)
    (hsub : ∀ t k, k ∈ (trace t).map Prod.fst → k ∈ expected)
    (t fuel : Nat) (entries : List Entry)
    (h : waitPoll expected.length trace t fuel = some entries) :
    (distinctKeys entries).length = expected.length ∧
    ∀ p ∈ expected, p ∈ entries.map Prod.fst := by
  induction fuel generalizing t with
  | zero => exact absurd h (by simp [waitPoll])
  | succ fuel ih =>
    simp only [waitPoll] at h
    split at h
    · rename_i hdone
      simp only [Option.some.injEq] at h
      subst h
      refine ⟨hdone, ?_⟩
      have hndd : (distinctKeys (trace t)).Nodup := List.nodup_dedup _
      have hsubd : distinctKeys (trace t) ⊆ expected := fun k hk =>
        hsub t k (List.mem_dedup.mp hk)
      have hsp : List.Subperm (distinctKeys (trace t)) expected :=
        hndd.subperm hsubd
      have hperm : (distinctKeys (trace t)).Perm expected :=
        hsp.perm_of_length_le (le_of_eq hdone.symm)
      intro p hp
      exact List.mem_dedup.mp (hperm.mem_iff.mpr hp)
    · exact ih (t + 1) h

/-- A constant two-participant KV trace used to witness the barrier
theorem. -/
def traceW : Nat → List Entry :=
  fun _ => [(TaskId.mk "worker" 0, "h:1"), (TaskId.mk "ps" 0, "h:2")]

/-- Witness for C2 on a constant two-participant trace. -/
theorem kvbarrier_wait_blocks_until_all_witness :
    ([TaskId.mk "worker" 0, TaskId.mk "ps" 0] : List TaskId).Nodup ∧
    (∀ t k, k ∈ (traceW t).map Prod.fst →
      k ∈ [TaskId.mk "worker" 0, TaskId.mk "ps" 0]) ∧
    waitPoll ([TaskId.mk "worker" 0, TaskId.mk "ps" 0] : List TaskId).length
      traceW 0 1 =
      some [(TaskId.mk "worker" 0, "h:1"), (TaskId.mk "ps" 0, "h:2")] ∧
    ((distinctKeys [(TaskId.mk "worker" 0, "h:1"), (TaskId.mk "ps" 0, "h:2")]).length =
        ([TaskId.mk "worker" 0, TaskId.mk "ps" 0] : List TaskId).length ∧
      ∀ p ∈ ([TaskId.mk "worker" 0, TaskId.mk "ps" 0] : List TaskId),
        p ∈ ([(TaskId.mk "worker" 0, "h:1"), (TaskId.mk "ps" 0, "h:2")] : List Entry).map
          Prod.fst) :=
  ⟨by decide, fun t => by simp [traceW], by decide,
    kvbarrier_wait_blocks_until_all [TaskId.mk "worker" 0, TaskId.mk "ps" 0]
      (by decide) traceW
      (fun t => by simp [traceW]) 0 1
      [(TaskId.mk "worker" 0, "h:1"), (TaskId.mk "ps" 0, "h:2")] (by decide)⟩

/-- `task.split("_", 1)` on the character list: split at the first
underscore only; `none` when no underscore occurs (in which case the
two-target unpacking in `main` raises). -/
def splitFirstAux : List Char → Option (List Char × List Char)
  | [] => none
  | c :: cs =>
    if c = '_' then some ([], cs)
    else
      match splitFirstAux cs with
      | none => none
      | some (a, b) => some (c :: a, b)

/-- `SKEIN_CONTAINER_ID.split("_", 1)` from `_dispatch_task.py` line 82. -/
def splitFirstUnderscore (s : String) : Option (String × String) :=
  match splitFirstAux s.data with
  | none => none
  | some (a, b) => some (⟨a⟩, ⟨b⟩)

/-- The ASCII whitespace `int()` strips around its argument. -/
def isPyWs (c : Char) : Bool :=
  c == ' ' || c == '\t' || c == '\n' || c == '\r'

def digitVal (c : Char) : Nat := c.toNat - 48

/-- The digit part of Python's `int(str)` after the first digit: decimal
digits, optionally separated by single underscores (Python >= 3.6); an
underscore must be followed by a digit and must not end the literal. -/
def goDigits : Nat → List Char → Option Nat
  | acc, [] => some acc
  | acc, c :: cs =>
    if c = '_' then
      match cs with
      | [] => none
      | c2 :: cs2 =>
        if c2.isDigit then goDigits (acc * 10 + digitVal c2) cs2 else none
    else if c.isDigit then goDigits (acc * 10 + digitVal c) cs else none

/-- Python's `digitpart`: nonempty, starts with a digit. -/
def pyDigitPart : List Char → Option Nat
  | [] => none
  | c :: cs => if c.isDigit then goDigits (digitVal c) cs else none

def stripPyWs (cs : List Char) : List Char :=
  ((cs.dropWhile isPyWs).reverse.dropWhile isPyWs).reverse

/-- Sign handling of Python's `int(str)`. -/
def pyIntCore : List Char → Option Int
  | [] => none
  | c :: cs =>
    if c = '+' then (pyDigitPart cs).map (fun n => (n : Int))
    else if c = '-' then (pyDigitPart cs).map (fun n => -(n : Int))
    else (pyDigitPart (c :: cs)).map (fun n => (n : Int))

/-- Python's `int(str)` (ASCII fragment): strip surrounding whitespace, an
optional sign, then decimal digits optionally separated by single
underscores.  `none` models `ValueError`. -/
def pyInt (s : String) : Option Int :=
  pyIntCore (stripPyWs s.data)

/-- `main`'s derivation of the task identity from `SKEIN_CONTAINER_ID`
(`_dispatch_task.py` lines 81-83): split at the first underscore only, then
`int()` the remainder; `none` models the `ValueError` either step raises. -/
def parseContainerId (s : String) : Option (String × Int) :=
  match splitFirstUnderscore s with
  | none => none
  | some (t, rest) =>
    match pyInt rest with
    | none => none
    | some n => some (t, n)

/-- The decimal value of a digit string. -/
def decVal (cs : List Char) : Nat :=
  cs.foldl (fun a c => a * 10 + digitVal c) 0

/-- A plain decimal-digit string (what the claim calls "a decimal
integer grammar of `<digits>`"). -/
def isDecimalDigits (s : String) : Bool :=
  !s.data.isEmpty && s.data.all Char.isDigit

/-- The observable actions of one orchestrator run
(`tf_skein/_dispatch_task.py`):
`createClient` = `skein.ApplicationClient.from_current()` (line 84, the
first contact with the KV store's application), `allocAddr` = `next(it)`
(line 88), `initWait` = `init_barrier.wait` (line 89), `closeAlloc` = the
`closing(...)` context manager releasing the allocator on block exit (line
86), `setEnviron` = `xset_environ(TF_CONFIG=...)` (line 35),
`mkExperiment` = `experiment_fn()` (line 41), `startServer` =
`tf.train.Server(...)` (line 52), `startThread` = `thread.start()` (line
65), `joinThread` = `thread.join()` (line 71), `stopWait` =
`stop_barrier.wait` (line 93), `raiseExc` = `raise thread.exception()`
(line 95). -/
inductive Event where
  | createClient
  | allocAddr
  | initWait
  | closeAlloc
  | setEnviron
  | mkExperiment
  | startServer
  | startThread
  | joinThread
  | stopWait
  | raiseExc
deriving DecidableEq, Repr

/-- How one `main` run ends: normal return, the captured worker failure
re-raised, the container-id parse `ValueError`, or the `RuntimeError` from
the `TF_CONFIG` collision propagating out of `dispatch`. -/
inductive Outcome (α : Type) where
  | ok
  | raised (e : α)
  | parseError
  | envCollision (msg : String)
deriving DecidableEq, Repr

/-- `fake_google_env` from `dispatch` (`_dispatch_task.py` line 34). -/
def fakeGoogleEnv (taskType : String) : Bool :=
  taskType != "evaluator" && taskType != "ps"

/-- The actions `dispatch` performs after `xset_environ` succeeds
(`_dispatch_task.py` lines 41-71): build the experiment, start a
`tf.train.Server` when `fake_google_env`, start the monitored thread, and
join it unless the task type is `"ps"`. -/
def dispatchEvents (taskType : String) : List Event :=
  [.setEnviron, .mkExperiment] ++
    (if fakeGoogleEnv taskType then [.startServer] else []) ++
    [.startThread] ++
    (if taskType = "ps" then [] else [.joinThread])

/-- `dispatch` (`_dispatch_task.py` lines 22-73).  `cfg` stands for the
serialized `TF_CONFIG` JSON `dispatch` computes from the cluster spec and
the task identity (line 35); `threadExc` is the failure the monitored
thread's unit of work will have captured by the time `exception()` is read
(`none` when it finishes normally).  On success it returns the captured
failure slot and the thread's daemon flag (`task_type == "ps"`, line
64); the `xset_environ` `RuntimeError` propagates as `.error` with no
further action taken. -/
def dispatchModel {α : Type} (env : Env) (taskType : String) (_taskId : Int)
    (cfg : String) (threadExc : Option α) :
    List Event × Except String (Option α × Bool) :=
  match xset_environ env [("TF_CONFIG", cfg)] with
  | .error m => ([], .error m)
  | .ok _ => (dispatchEvents taskType, .ok (threadExc, taskType = "ps"))

/-- `main` (`_dispatch_task.py` lines 76-95): parse `SKEIN_CONTAINER_ID`,
create the skein client, allocate one address inside the
`closing(iter_available_sock_addrs())` block, wait on the "init" barrier
still inside that block, close the allocator on block exit, run
`dispatch`, wait on the "stop" barrier, and finally re-raise the thread's
captured exception if there is one. -/
def mainModel {α : Type} (cid : String) (env : Env) (cfg : String)
    (threadExc : Option α) : List Event × Outcome α :=
  match parseContainerId cid with
  | none => ([], .parseError)
  | some (taskType, taskId) =>
    match dispatchModel env taskType taskId cfg threadExc with
    | (devs, .error m) =>
      ([.createClient, .allocAddr, .initWait, .closeAlloc] ++ devs,
        .envCollision m)
    | (devs, .ok (some e, _)) =>
      ([.createClient, .allocAddr, .initWait, .closeAlloc] ++ devs ++
        [.stopWait, .raiseExc], .raised e)
    | (devs, .ok (none, _)) =>
      ([.createClient, .allocAddr, .initWait, .closeAlloc] ++ devs ++
        [.stopWait], .ok)

/-- `precedesB x y l`: some occurrence of `x` comes strictly before an
occurrence of `y` in `l`. -/
def precedesB (x y : Event) : List Event → Bool
  | [] => false
  | e :: es => if e = x then decide (y ∈ es) else precedesB x y es

theorem precedesB_append_cons (x y : Event) (l₁ l₂ : List Event)
    (hy : y ∈ l₂) : precedesB x y (l₁ ++ x :: l₂) = true := by
  induction l₁ with
  | nil => simp [precedesB, hy]
  | cons e es ih =>
    by_cases he : e = x
    · subst he
      simp only [List.cons_append, precedesB, if_pos rfl]
      exact decide_eq_true
        (List.mem_append.mpr (Or.inr (List.mem_cons_of_mem _ hy)))
    · simpa [precedesB, he] using ih

theorem mem_dispatchEvents (tt : String) (e : Event)
    (he : e ∈ dispatchEvents tt) :
    e = .setEnviron ∨ e = .mkExperiment ∨ e = .startServer ∨
      e = .startThread ∨ e = .joinThread := by
  unfold dispatchEvents at he
  by_cases h1 : fakeGoogleEnv tt = true <;> by_cases h2 : tt = "ps" <;>
    simp [h1, h2] at he <;> tauto

theorem stopWait_not_mem_dispatchEvents (tt : String) :
    Event.stopWait ∉ dispatchEvents tt := by
  intro he
  rcases mem_dispatchEvents tt _ he with h | h | h | h | h <;> cases h

theorem raiseExc_not_mem_dispatchEvents (tt : String) :
    Event.raiseExc ∉ dispatchEvents tt := by
  intro he
  rcases mem_dispatchEvents tt _ he with h | h | h | h | h <;> cases h

theorem allocAddr_not_mem_dispatchEvents (tt : String) :
    Event.allocAddr ∉ dispatchEvents tt := by
  intro he
  rcases mem_dispatchEvents tt _ he with h | h | h | h | h <;> cases h

theorem closeAlloc_not_mem_dispatchEvents (tt : String) :
    Event.closeAlloc ∉ dispatchEvents tt := by
  intro he
  rcases mem_dispatchEvents tt _ he with h | h | h | h | h <;> cases h

theorem initWait_not_mem_dispatchEvents (tt : String) :
    Event.initWait ∉ dispatchEvents tt := by
  intro he
  rcases mem_dispatchEvents tt _ he with h | h | h | h | h <;> cases h

theorem xset_environ_ok_of_compat (env : Env) (kvs : Env)
    (h : ∀ p ∈ kvs, ∀ w, env.lookup p.1 = some w → w = p.2) :
    ∃ env', xset_environ env kvs = .ok env' := by
  unfold xset_environ
  cases hf : kvs.find? (envCollides env) with
  | none => exact ⟨_, rfl⟩
  | some kv =>
    have hp := List.find?_some hf
    have hmem := List.mem_of_find?_eq_some hf
    unfold envCollides at hp
    cases hl : env.lookup kv.1 with
    | none => rw [hl] at hp; cases hp
    | some v =>
      rw [hl] at hp
      have : v = kv.2 := h kv hmem v hl
      subst this
      simp at hp

/-- C3: when the monitored unit of work terminated by raising, `main`
re-raises exactly the captured failure value (`raise thread.exception()`
re-raises the stored object itself), and the raise happens only after the
stop-barrier step; when the unit finished normally, `main` returns without
raising. -/
theorem worker_failure_reraised {α : Type} (cid : String) (env : Env)
    (cfg : String) (exc : Option α) (tt : String) (ti : Int)
    (hp : parseContainerId cid = some (tt, ti))
    (hok : ∀ w, env.lookup "TF_CONFIG" = some w → w = cfg) :
    (∀ e, exc = some e →
      (mainModel cid env cfg exc).2 = .raised e ∧
      precedesB .stopWait .raiseExc (mainModel cid env cfg exc).1 = true) ∧
    (exc = none → (mainModel cid env cfg exc).2 = .ok ∧
      .raiseExc ∉ (mainModel cid env cfg exc).1) := by
  obtain ⟨env', hx⟩ := xset_environ_ok_of_compat env [("TF_CONFIG", cfg)]
    (by
      intro p hp' w hw
      simp only [List.mem_singleton] at hp'
      subst hp'
      exact hok w hw)
  have hdm : dispatchModel env tt ti cfg exc =
      (dispatchEvents tt, .ok (exc, decide (tt = "ps"))) := by
    simp [dispatchModel, hx]
  constructor
  · intro e he
    subst he
    constructor
    · simp [mainModel, hp, hdm]
    · have hev : (mainModel cid env cfg (some e)).1 =
          ([Event.createClient, .allocAddr, .initWait, .closeAlloc] ++
            dispatchEvents tt) ++ Event.stopWait :: [Event.raiseExc] := by
        simp [mainModel, hp, hdm]
      rw [hev]
      exact precedesB_append_cons _ _ _ _ (by simp)
  · intro he
    subst he
    constructor
    · simp [mainModel, hp, hdm]
    · have hev : (mainModel cid env cfg (none : Option α)).1 =
          [Event.createClient, .allocAddr, .initWait, .closeAlloc] ++
            dispatchEvents tt ++ [Event.stopWait] := by
        simp [mainModel, hp, hdm]
      rw [hev]
      simp [raiseExc_not_mem_dispatchEvents tt]

/-- Witness for C3: a worker whose unit of work raised `"boom"` sees `main`
re-raise `"boom"` after the stop barrier. -/
theorem worker_failure_reraised_witness :
    parseContainerId "worker_0" = some ("worker", (0 : Int)) ∧
    (∀ w, ([] : Env).lookup "TF_CONFIG" = some w → w = "CFG") ∧
    ((∀ e, (some "boom" : Option String) = some e →
      (mainModel "worker_0" [] "CFG" (some "boom")).2 = .raised e ∧
      precedesB .stopWait .raiseExc
        (mainModel "worker_0" [] "CFG" (some "boom")).1 = true) ∧
    ((some "boom" : Option String) = none →
      (mainModel "worker_0" [] "CFG" (some "boom")).2 = .ok ∧
      .raiseExc ∉ (mainModel "worker_0" [] "CFG" (some "boom")).1)) :=
  ⟨by decide, fun w h => by simp [List.lookup] at h,
    worker_failure_reraised "worker_0" [] "CFG" (some "boom") "worker" 0
      (by decide) (fun w h => by simp [List.lookup] at h)⟩

/-- C7 fails on the code: the `closing(...)` block in `main` spans the
init-barrier wait, so in a concrete run `initWait` happens strictly before
`closeAlloc` — the allocator is still open when the orchestrator enters the
init barrier wait. -/
theorem allocator_close_counterexample :
    precedesB .initWait .closeAlloc
      (mainModel "worker_0" [] "CFG" (none : Option String)).1 = true ∧
    precedesB .closeAlloc .initWait
      (mainModel "worker_0" [] "CFG" (none : Option String)).1 = false := by
  decide

/-- C7 amended: one single address is drawn from the allocator, and the
allocator is closed immediately after the init-barrier wait returns (the
very next action) and before any dispatch work — but not before entering
the init wait. -/
theorem allocator_closed_after_init_wait {α : Type} (cid : String)
    (env : Env) (cfg : String) (exc : Option α) (tt : String) (ti : Int)
    (hp : parseContainerId cid = some (tt, ti)) :
    ∃ rest, (mainModel cid env cfg exc).1 =
        [.createClient, .allocAddr, .initWait, .closeAlloc] ++ rest ∧
      .allocAddr ∉ rest ∧ .initWait ∉ rest ∧ .closeAlloc ∉ rest := by
  cases hx : xset_environ env [("TF_CONFIG", cfg)] with
  | error m =>
    refine ⟨[], ?_, by simp, by simp, by simp⟩
    simp [mainModel, hp, dispatchModel, hx]
  | ok env' =>
    cases exc with
    | some e =>
      refine ⟨dispatchEvents tt ++ [.stopWait, .raiseExc], ?_, ?_, ?_, ?_⟩
      · simp [mainModel, hp, dispatchModel, hx]
      · simp [allocAddr_not_mem_dispatchEvents tt]
      · simp [initWait_not_mem_dispatchEvents tt]
      · simp [closeAlloc_not_mem_dispatchEvents tt]
    | none =>
      refine ⟨dispatchEvents tt ++ [.stopWait], ?_, ?_, ?_, ?_⟩
      · simp [mainModel, hp, dispatchModel, hx]
      · simp [allocAddr_not_mem_dispatchEvents tt]
      · simp [initWait_not_mem_dispatchEvents tt]
      · simp [closeAlloc_not_mem_dispatchEvents tt]

/-- Witness for the amended C7 at a concrete run. -/
theorem allocator_closed_after_init_wait_witness :
    parseContainerId "worker_0" = some ("worker", (0 : Int)) ∧
    (∃ rest, (mainModel "worker_0" [] "CFG" (none : Option String)).1 =
        [.createClient, .allocAddr, .initWait, .closeAlloc] ++ rest ∧
      .allocAddr ∉ rest ∧ .initWait ∉ rest ∧ .closeAlloc ∉ rest) :=
  ⟨by decide,
    allocator_closed_after_init_wait "worker_0" [] "CFG"
      (none : Option String) "worker" 0 (by decide)⟩

/-- C8 fails on the code: `main` calls `stop_barrier.wait(task)`
unconditionally, so a `"ps"` participant does call the stop barrier — here
a concrete `"ps"` run contains `stopWait` (while indeed never joining its
thread). -/
theorem ps_stop_barrier_counterexample :
    Event.stopWait ∈ (mainModel "ps_0" [] "CFG" (none : Option String)).1 ∧
    Event.joinThread ∉ (mainModel "ps_0" [] "CFG" (none : Option String)).1 := by
  decide

/-- C8 amended: for task type `"ps"` the orchestrator never joins its unit
of work (no `joinThread` action; the thread is started as a daemon), but it
does call `KVBarrier("stop").wait` like every other role — blocking there
is what keeps the process alive serving until all participants signal. -/
theorem ps_unattended_no_join_but_stop {α : Type} (cid : String) (env : Env)
    (cfg : String) (exc : Option α) (ti : Int)
    (hp : parseContainerId cid = some ("ps", ti))
    (hok : ∀ w, env.lookup "TF_CONFIG" = some w → w = cfg) :
    Event.joinThread ∉ (mainModel cid env cfg exc).1 ∧
    Event.stopWait ∈ (mainModel cid env cfg exc).1 ∧
    (dispatchModel env "ps" ti cfg exc).2 = .ok (exc, true) := by
  obtain ⟨env', hx⟩ := xset_environ_ok_of_compat env [("TF_CONFIG", cfg)]
    (by
      intro p hp' w hw
      simp only [List.mem_singleton] at hp'
      subst hp'
      exact hok w hw)
  have hdm : dispatchModel env "ps" ti cfg exc =
      (dispatchEvents "ps", .ok (exc, decide ("ps" = "ps"))) := by
    simp [dispatchModel, hx]
  have hde : dispatchEvents "ps" = [.setEnviron, .mkExperiment, .startThread] := by
    decide
  refine ⟨?_, ?_, ?_⟩
  · cases exc with
    | some e => simp [mainModel, hp, hdm, hde]
    | none => simp [mainModel, hp, hdm, hde]
  · cases exc with
    | some e => simp [mainModel, hp, hdm]
    | none => simp [mainModel, hp, hdm]
  · simp [hdm]

/-- Witness for the amended C8 at a concrete `"ps"` run. -/
theorem ps_unattended_no_join_but_stop_witness :
    parseContainerId "ps_0" = some ("ps", (0 : Int)) ∧
    (Event.joinThread ∉ (mainModel "ps_0" [] "CFG" (none : Option String)).1 ∧
      Event.stopWait ∈ (mainModel "ps_0" [] "CFG" (none : Option String)).1 ∧
      (dispatchModel [] "ps" 0 "CFG" (none : Option String)).2 =
        .ok (none, true)) :=
  ⟨by decide,
    ps_unattended_no_join_but_stop "ps_0" [] "CFG" (none : Option String) 0
      (by decide) (fun w h => by simp [List.lookup] at h)⟩

/-- C9: calling `dispatch` while the ambient environment already binds
`TF_CONFIG` to a different value fails at once with the environment
collision error, before the experiment is built, before any server is
started and before any monitored thread is launched (the action list is
empty). -/
theorem dispatch_tf_config_collision {α : Type} (env : Env) (tt : String)
    (ti : Int) (cfg : String) (exc : Option α) (v : String)
    (hv : env.lookup "TF_CONFIG" = some v) (hne : v ≠ cfg) :
    dispatchModel env tt ti cfg exc =
      ([], .error ("Environment variable already set: " ++ "TF_CONFIG")) := by
  have hcol : envCollides env ("TF_CONFIG", cfg) = true := by
    simp [envCollides, hv, bne_iff_ne, hne]
  simp [dispatchModel, xset_environ, List.find?, hcol]

/-- Witness for C9 at a concrete environment. -/
theorem dispatch_tf_config_collision_witness :
    (([("TF_CONFIG", "OLD")] : Env).lookup "TF_CONFIG" = some "OLD" ∧
      "OLD" ≠ "NEW") ∧
    dispatchModel [("TF_CONFIG", "OLD")] "worker" 0 "NEW"
        (none : Option String) =
      ([], .error ("Environment variable already set: " ++ "TF_CONFIG")) :=
  ⟨⟨by decide, by decide⟩,
    dispatch_tf_config_collision [("TF_CONFIG", "OLD")] "worker" 0 "NEW"
      (none : Option String) "OLD" (by decide) (by decide)⟩

theorem digit_ne_underscore {c : Char} (h : c.isDigit = true) : c ≠ '_' :=
  fun hc => by subst hc; exact absurd h (by decide)

theorem digit_ne_plus {c : Char} (h : c.isDigit = true) : c ≠ '+' :=
  fun hc => by subst hc; exact absurd h (by decide)

theorem digit_ne_minus {c : Char} (h : c.isDigit = true) : c ≠ '-' :=
  fun hc => by subst hc; exact absurd h (by decide)

theorem digit_not_ws {c : Char} (h : c.isDigit = true) : isPyWs c = false := by
  cases hw : isPyWs c
  · rfl
  · exfalso
    simp only [isPyWs, Bool.or_eq_true, beq_iff_eq] at hw
    rcases hw with ((h1 | h1) | h1) | h1 <;> subst h1 <;>
      exact absurd h (by decide)

theorem splitFirstAux_append (t ds : List Char) (ht : '_' ∉ t) :
    splitFirstAux (t ++ '_' :: ds) = some (t, ds) := by
  induction t with
  | nil => simp [splitFirstAux]
  | cons c cs ih =>
    have hc : ¬ (c = '_') := fun h =>
      ht (List.mem_cons.mpr (Or.inl h.symm))
    have ih' := ih (fun h => ht (List.mem_cons_of_mem c h))
    simp [splitFirstAux, hc, ih']

theorem dropWhile_ws_eq_self (l : List Char)
    (h : ∀ c ∈ l, isPyWs c = false) : l.dropWhile isPyWs = l := by
  cases l with
  | nil => rfl
  | cons c cs => simp [List.dropWhile, h c (List.mem_cons_self c cs)]

theorem stripPyWs_digits (l : List Char) (h : ∀ c ∈ l, c.isDigit = true) :
    stripPyWs l = l := by
  have h1 : ∀ c ∈ l, isPyWs c = false := fun c hc => digit_not_ws (h c hc)
  unfold stripPyWs
  rw [dropWhile_ws_eq_self l h1,
    dropWhile_ws_eq_self l.reverse (fun c hc => h1 c (List.mem_reverse.mp hc))]
  exact List.reverse_reverse l

theorem goDigits_all_digits (cs : List Char)
    (h : ∀ c ∈ cs, c.isDigit = true) :
    ∀ acc, goDigits acc cs =
      some (cs.foldl (fun a c => a * 10 + digitVal c) acc) := by
  induction cs with
  | nil => intro acc; simp [goDigits]
  | cons c cs ih =>
    intro acc
    have hc : c.isDigit = true := h c (List.mem_cons_self c cs)
    have hcu : ¬ (c = '_') := digit_ne_underscore hc
    have hstep : goDigits acc (c :: cs) = goDigits (acc * 10 + digitVal c) cs := by
      rw [goDigits.eq_def]
      simp only [if_neg hcu, if_pos hc]
    rw [hstep, List.foldl_cons]
    exact ih (fun x hx => h x (List.mem_cons_of_mem c hx)) _

theorem pyDigitPart_all_digits (c : Char) (cs : List Char)
    (h : ∀ x ∈ c :: cs, x.isDigit = true) :
    pyDigitPart (c :: cs) = some (decVal (c :: cs)) := by
  have hc : c.isDigit = true := h c (List.mem_cons_self c cs)
  simp only [pyDigitPart, hc, if_true]
  rw [goDigits_all_digits cs (fun x hx => h x (List.mem_cons_of_mem c hx))]
  simp only [decVal, List.foldl_cons]
  have : (0 : Nat) * 10 + digitVal c = digitVal c := by omega
  rw [this]

theorem pyInt_digits (ds : String) (hne : ds.data ≠ [])
    (h : ∀ c ∈ ds.data, c.isDigit = true) :
    pyInt ds = some ((decVal ds.data : Nat) : Int) := by
  unfold pyInt
  rw [stripPyWs_digits ds.data h]
  cases hd : ds.data with
  | nil => exact absurd hd hne
  | cons c cs =>
    have hall : ∀ x ∈ c :: cs, x.isDigit = true := hd ▸ h
    have hc : c.isDigit = true := hall c (List.mem_cons_self c cs)
    have hplus : ¬ (c = '+') := digit_ne_plus hc
    have hminus : ¬ (c = '-') := digit_ne_minus hc
    simp only [pyIntCore, hplus, if_false, hminus]
    rw [pyDigitPart_all_digits c cs hall]
    simp

theorem parseContainerId_append (t ds : String) (ht : '_' ∉ t.data)
    (hne : ds.data ≠ []) (hds : ∀ c ∈ ds.data, c.isDigit = true) :
    parseContainerId (t ++ "_" ++ ds) = some (t, (decVal ds.data : Int)) := by
  have hdata : (t ++ "_" ++ ds).data = t.data ++ '_' :: ds.data := by
    simp [String.data_append]
  unfold parseContainerId splitFirstUnderscore
  rw [hdata, splitFirstAux_append t.data ds.data ht]
  have hpy : pyInt ⟨ds.data⟩ = some ((decVal ds.data : Nat) : Int) :=
    pyInt_digits ds hne hds
  simp [hpy]

/-- C10 (amended): `main` splits `SKEIN_CONTAINER_ID` at the first
underscore only — for `<type>_<digits>` with an underscore-free type and a
nonempty digit string it recovers the type and the decimal value — and
whenever the remainder is rejected by Python's integer parser, `main`
fails with the parse error before creating the skein client, before
allocating a port and before contacting the KV store (no action at all is
taken).  The original claim's "not a decimal integer implies a parse
error" direction is weakened to "rejected by `int()`", since `int()` also
accepts underscore-grouped digit strings. -/
theorem container_id_parsing {α : Type} (t ds : String) (ht : '_' ∉ t.data)
    (hne : ds.data ≠ []) (hds : ∀ c ∈ ds.data, c.isDigit = true) :
    parseContainerId (t ++ "_" ++ ds) = some (t, (decVal ds.data : Int)) ∧
    (∀ (s : String) (env : Env) (cfg : String) (exc : Option α),
      parseContainerId s = none →
        mainModel s env cfg exc = ([], .parseError)) :=
  ⟨parseContainerId_append t ds ht hne hds,
    fun s env cfg exc hs => by simp [mainModel, hs]⟩

/-- Witness for the amended C10 at `"worker" ++ "_" ++ "7"`. -/
theorem container_id_parsing_witness :
    ('_' ∉ "worker".data ∧ "7".data ≠ [] ∧
      (∀ c ∈ "7".data, c.isDigit = true)) ∧
    (parseContainerId ("worker" ++ "_" ++ "7") =
        some ("worker", (decVal "7".data : Int)) ∧
      (∀ (s : String) (env : Env) (cfg : String) (exc : Option String),
        parseContainerId s = none →
          mainModel s env cfg exc = ([], .parseError))) :=
  ⟨⟨by decide, by decide, by decide⟩,
    container_id_parsing "worker" "7" (by decide) (by decide) (by decide)⟩

/-- C10 fails as stated on the code: `"3_4"` is not a decimal-digit
string, yet `int("3_4")` succeeds (Python accepts single underscores
between digits), so `main` parses container id `"worker_3_4"` to
`("worker", 34)` instead of failing with a parse error. -/
theorem container_id_parse_counterexample :
    isDecimalDigits "3_4" = false ∧
    parseContainerId "worker_3_4" = some ("worker", (34 : Int)) ∧
    (mainModel "worker_3_4" [] "CFG" (none : Option String)).2 ≠
      Outcome.parseError := by
  decide

end TfSkein
